import Mathlib

/-!
Verification development for the console phonebook (`src/main.py`).

The program keeps a pandas `DataFrame` of contact records with the fixed
column schema `ID, Фамилия, Имя, Отчество, Организация, Рабочий телефон,
Сотовый телефон`, persists it through a CSV adapter (`CSVDataStorage`),
and mutates it through `Directory.add_record` / `Directory.edit_record`;
`Directory.search_records` filters rows by a keyword.

The shallow embedding below models:
  * Python strings as Lean `String` (`str.isdigit` is modelled over the
    decimal digits `0`-`9`; `str.strip` over ASCII whitespace);
  * a `DataFrame` cell as either an integer, an integer-valued float, a
    string, or NaN — the dtypes that actually arise in this program;
  * `pandas.read_csv` type inference at the integer level: a column whose
    non-NA cells all parse as integer literals is loaded as integers
    (as floats when NA cells are present); otherwise the cells stay
    strings, and the default NA sentinels become NaN.  Fractional float
    literals, int64 overflow and duplicate-header mangling are outside
    the model, and none of the theorems below depends on them;
  * `pandas.Series.str.contains(keyword)` with its default `regex=True`
    via a Brzozowski-derivative matcher over a core regex fragment
    (literals, `.`, `*`, `+`, `?`, `|`, grouping, escaped
    metacharacters); character classes, anchors, repetition counts and
    class escapes are not modelled — the parser rejects them, and no
    theorem below is decided on such a keyword.
-/

namespace Phonebook

/-- Python `str.isdigit`, modelled over the decimal digits `0`-`9`
(Python additionally accepts some non-ASCII Unicode digit characters;
no theorem below depends on such input). -/
def pyIsdigit (s : String) : Bool :=
  !s.data.isEmpty && s.data.all Char.isDigit

/-- Python `str.strip` on a character list: drop whitespace from both ends. -/
def pyStripList (cs : List Char) : List Char :=
  ((cs.dropWhile Char.isWhitespace).reverse.dropWhile Char.isWhitespace).reverse

/-- Python `str.strip`. -/
def pyStrip (s : String) : String :=
  String.mk (pyStripList s.data)

/-- The fixed column schema of `records.csv` (`CSVDataStorage.load`). -/
def schemaColumns : List String :=
  ["ID", "Фамилия", "Имя", "Отчество", "Организация",
   "Рабочий телефон", "Сотовый телефон"]

/-- The work-phone column name. -/
def workPhoneCol : String := "Рабочий телефон"

/-- The mobile-phone column name. -/
def mobilePhoneCol : String := "Сотовый телефон"

/-- Membership in the phone-column pair used by `edit_record`. -/
def isPhoneCol (c : String) : Bool :=
  c == workPhoneCol || c == mobilePhoneCol

/-- A pandas `DataFrame` cell as it arises in this program: an `int64`,
an integer-valued `float64`, a Python string, or NaN. -/
inductive Cell where
  | int (n : Int)
  | float (n : Int)
  | str (s : String)
  | nan
deriving DecidableEq

/-- `str(cell)`, as produced by `row.astype(str)` in `search_records`. -/
def cellText : Cell → String
  | .int n => toString n
  | .float n => toString n ++ ".0"
  | .str s => s
  | .nan => "nan"

/-- The text `DataFrame.to_csv` writes for a cell (NaN becomes the empty
field). -/
def cellOutText : Cell → String
  | .int n => toString n
  | .float n => toString n ++ ".0"
  | .str s => s
  | .nan => ""

/-- A `DataFrame`: ordered column names and rows of cells. -/
structure DF where
  columns : List String
  rows : List (List Cell)
deriving DecidableEq

/-- The text matrix of a `DataFrame` (`astype(str)` of every cell). -/
def textMatrix (df : DF) : List (List String) :=
  df.rows.map (fun r => r.map cellText)

/-- The backing storage of `CSVDataStorage`: the file may be absent,
present but zero-byte, or a header line plus data rows (modelled at the
field level; `to_csv` quoting makes the text layer lossless). -/
inductive Storage where
  | absent
  | emptyFile
  | file (header : List String) (cells : List (List String))
deriving DecidableEq

/-- The load-time faults of `pandas.read_csv` relevant here:
`EmptyDataError` for a zero-byte file, and a tokenizer error when a data
row has more fields than the header. -/
inductive LoadErr where
  | emptyData
  | tooManyFields
deriving DecidableEq

instance {ε α : Type} [DecidableEq ε] [DecidableEq α] :
    DecidableEq (Except ε α) := fun a b =>
  match a, b with
  | .ok x, .ok y =>
    if h : x = y then .isTrue (by rw [h]) else .isFalse (by simp [h])
  | .error x, .error y =>
    if h : x = y then .isTrue (by rw [h]) else .isFalse (by simp [h])
  | .ok _, .error _ => .isFalse (by simp)
  | .error _, .ok _ => .isFalse (by simp)

/-- The default NA sentinels of `pandas.read_csv` (representative list;
the empty field is the one this program can actually produce). -/
def naStrings : List String :=
  ["", "#N/A", "#NA", "<NA>", "N/A", "NA", "NULL", "NaN", "None",
   "n/a", "nan", "null"]

/-- Is a raw CSV field one of the NA sentinels? -/
def isNaText (s : String) : Bool :=
  naStrings.contains s

/-- Value of a non-empty all-digit character list, else `none`. -/
def digitsVal (cs : List Char) : Option Nat :=
  if cs.isEmpty then none
  else cs.foldl
    (fun acc c =>
      acc.bind (fun a => if c.isDigit then some (a * 10 + (c.toNat - 48)) else none))
    (some 0)

/-- Integer-literal parse, as the `read_csv` tokenizer accepts it:
an optional minus sign followed by decimal digits. -/
def pyIntParse (s : String) : Option Int :=
  match s.data with
  | [] => none
  | c :: cs =>
    if c = '-' then (digitsVal cs).map (fun n => -(n : Int))
    else (digitsVal (c :: cs)).map (fun n => (n : Int))

/-- Does every cell of column `j` (NA cells aside) parse as an integer? -/
def colAllInt (cells : List (List String)) (j : Nat) : Bool :=
  cells.all (fun r => isNaText (r.getD j "") || (pyIntParse (r.getD j "")).isSome)

/-- Does column `j` contain an NA cell? -/
def colHasNa (cells : List (List String)) (j : Nat) : Bool :=
  cells.any (fun r => isNaText (r.getD j ""))

/-- Convert one raw CSV field given its column's inference outcome. -/
def convCell (allInt hasNa : Bool) (s : String) : Cell :=
  if isNaText s then .nan
  else if allInt then
    (if hasNa then .float ((pyIntParse s).getD 0) else .int ((pyIntParse s).getD 0))
  else .str s

/-- `read_csv` body conversion: per column, integer inference as in
pandas (rows shorter than the header are padded with NA). -/
def convertRows (header : List String) (cells : List (List String)) :
    List (List Cell) :=
  cells.map (fun r =>
    (List.range header.length).map
      (fun j => convCell (colAllInt cells j) (colHasNa cells j) (r.getD j "")))

namespace CSVDataStorage

/-- `CSVDataStorage.load`: `pd.read_csv` with `FileNotFoundError` caught
and turned into an empty frame carrying the fixed schema; a zero-byte
file raises `EmptyDataError`, which the source does not catch. -/
def load (st : Storage) : Except LoadErr DF :=
  match st with
  | .absent => .ok { columns := schemaColumns, rows := [] }
  | .emptyFile => .error .emptyData
  | .file header cells =>
    if cells.any (fun r => header.length < r.length) then .error .tooManyFields
    else .ok { columns := header, rows := convertRows header cells }

/-- `CSVDataStorage.save`: `data.to_csv(file, index=False)` — a full
snapshot overwrite of header plus rows. -/
def save (df : DF) : Storage :=
  .file df.columns (df.rows.map (fun r => r.map cellOutText))

end CSVDataStorage

/-! ### Regular expressions

`search_records` evaluates `row.astype(str).str.contains(keyword)`, whose
default is `regex=True`: the keyword is compiled as a Python regular
expression and `re.search` looks for a match anywhere in each field's
text.  The fragment below (literal characters, `.`, `*`, `+`, `?`, `|`,
grouping, escaped metacharacters) is matched with Brzozowski
derivatives; `.` does not match a newline, as in Python without
`re.DOTALL`. -/

/-- Regular expressions over characters. -/
inductive Regex where
  | emp
  | eps
  | chr (c : Char)
  | dot
  | alt (r1 r2 : Regex)
  | cat (r1 r2 : Regex)
  | star (r : Regex)
deriving DecidableEq

/-- Does a regex accept the empty word? -/
def nullable : Regex → Bool
  | .emp => false
  | .eps => true
  | .chr _ => false
  | .dot => false
  | .alt r1 r2 => nullable r1 || nullable r2
  | .cat r1 r2 => nullable r1 && nullable r2
  | .star _ => true

/-- Brzozowski derivative of a regex by a character. -/
def deriv : Regex → Char → Regex
  | .emp, _ => .emp
  | .eps, _ => .emp
  | .chr c, a => if a = c then .eps else .emp
  | .dot, a => if a = '\n' then .emp else .eps
  | .alt r1 r2, a => .alt (deriv r1 a) (deriv r2 a)
  | .cat r1 r2, a =>
    if nullable r1 then .alt (.cat (deriv r1 a) r2) (deriv r2 a)
    else .cat (deriv r1 a) r2
  | .star r, a => .cat (deriv r a) (.star r)

/-- Does some prefix of the word match the regex? -/
def matchHere : Regex → List Char → Bool
  | r, [] => nullable r
  | r, c :: cs => nullable r || matchHere (deriv r c) cs

/-- `re.search`: does the regex match at some position of the word? -/
def reSearch : Regex → List Char → Bool
  | r, [] => nullable r
  | r, cs@(_ :: cs') => matchHere r cs || reSearch r cs'

/-- `re.search` over a string. -/
def reSearchStr (r : Regex) (s : String) : Bool :=
  reSearch r s.data

/-- The regex metacharacters of the modelled fragment (characters the
parser will not take as literals; `[`, `]`, `^`, `$` and the braces are
rejected as unsupported). -/
def metaChars : List Char :=
  ['(', ')', '*', '+', '?', '|', '.', '\\', '[', ']', '^', '$',
   Char.ofNat 123, Char.ofNat 125]

/-- A character the parser treats as a plain literal. -/
def ordinaryChar (c : Char) : Bool :=
  !(metaChars.contains c)

/-- Fold the postfix quantifiers `*`, `+`, `?` onto a parsed atom. -/
def applyReps : Regex → List Char → Regex × List Char
  | r, c :: cs =>
    if c = '*' then applyReps (.star r) cs
    else if c = '+' then applyReps (.cat r (.star r)) cs
    else if c = '?' then applyReps (.alt r .eps) cs
    else (r, c :: cs)
  | r, [] => (r, [])

mutual

/-- Parse an alternation (`a|b|...`); fuel-bounded recursive descent. -/
def parseAlt : Nat → List Char → Option (Regex × List Char)
  | 0, _ => none
  | f + 1, cs =>
    match parseCat f cs with
    | none => none
    | some (r, rest) =>
      match rest with
      | '|' :: rest2 =>
        match parseAlt f rest2 with
        | some (r2, rest3) => some (.alt r r2, rest3)
        | none => none
      | _ => some (r, rest)

/-- Parse a concatenation of quantified atoms; the empty concatenation
is `eps`. -/
def parseCat : Nat → List Char → Option (Regex × List Char)
  | 0, _ => none
  | f + 1, cs =>
    match parseRep f cs with
    | none => some (.eps, cs)
    | some (r, rest) =>
      match parseCat f rest with
      | some (r2, rest2) => some (.cat r r2, rest2)
      | none => none

/-- Parse one atom with its postfix quantifiers. -/
def parseRep : Nat → List Char → Option (Regex × List Char)
  | 0, _ => none
  | f + 1, cs =>
    match parseAtom f cs with
    | none => none
    | some (r, rest) => some (applyReps r rest)

/-- Parse one atom: a group, `.`, an escaped metacharacter, or a
literal character. -/
def parseAtom : Nat → List Char → Option (Regex × List Char)
  | 0, _ => none
  | _ + 1, [] => none
  | f + 1, c :: cs =>
    if c = '(' then
      match parseAlt f cs with
      | some (r, ')' :: rest) => some (r, rest)
      | _ => none
    else if c = '.' then some (.dot, cs)
    else if c = '\\' then
      match cs with
      | d :: cs2 => if metaChars.contains d then some (.chr d, cs2) else none
      | [] => none
    else if metaChars.contains c then none
    else some (.chr c, cs)

end

/-- Compile a whole pattern; `none` models `re.error` (or a construct
outside the modelled fragment). -/
def parseRegex (s : String) : Option Regex :=
  match parseAlt (4 * s.data.length + 4) s.data with
  | some (r, []) => some r
  | _ => none

/-! ### The `Directory` store -/

/-- The state of the `Directory` singleton: the in-memory `DataFrame`,
the `next_id` counter, and the backing storage.  `saveLog` records, in
order, the collection passed to each `data_storage.save` call, so
theorems can state whether a mutation persisted anything. -/
structure Directory where
  data : DF
  next_id : Int
  storage : Storage
  saveLog : List DF
deriving DecidableEq

/-- Outcome of `Directory.add_record` (the source prints a message and
returns; the messages are modelled as result values). -/
inductive AddResult where
  | ok
  | emptyField
  | invalidPhone
  | keyError
deriving DecidableEq

/-- Outcome of `Directory.edit_record`. -/
inductive EditResult where
  | ok
  | notFound
  | rejected (key : String)
  | keyError
deriving DecidableEq

/-- `Directory.validate_phone`: `phone.isdigit()`. -/
def validate_phone (phone : String) : Bool :=
  pyIsdigit phone

/-- Python `dict` lookup over an association list built left to right
(first binding wins; the dicts in the source have distinct keys). -/
def lookupStr : List (String × String) → String → Option String
  | [], _ => none
  | (k, v) :: ps, key => if k == key then some v else lookupStr ps key

/-- The non-`ID` columns, in column order — the keys of the `record`
dicts built in `main` and in `edit_record`. -/
def nonIDColumns (df : DF) : List String :=
  df.columns.filter (fun c => c != "ID")

/-- `self.data_storage.save(self.data)`: overwrite the storage with the
current collection and log the call. -/
def Directory.doSave (d : Directory) : Directory :=
  { d with storage := CSVDataStorage.save d.data,
           saveLog := d.saveLog ++ [d.data] }

/-- The store with its in-memory rows replaced (columns, `next_id`,
storage and save log untouched). -/
def Directory.withRows (d : Directory) (rows : List (List Cell)) : Directory :=
  { d with data := { columns := d.data.columns, rows := rows } }

/-- The row `pd.DataFrame([record_with_id], columns=self.data.columns)`
builds: cells aligned to the column order, NaN for a column missing from
the record dict. -/
def newRowFor (df : DF) (record : List (String × String)) (id : Int) :
    List Cell :=
  df.columns.map (fun c =>
    if c == "ID" then Cell.int id
    else
      match lookupStr record c with
      | some v => Cell.str v
      | none => Cell.nan)

/-- `Directory.add_record`.  `input` lists the user-supplied values for
the non-`ID` columns in column order (the order of `record.values()`).
Validation order is the source's: the all-fields-non-blank check first,
then `validate_phone` on the work phone (a missing phone key raises
`KeyError`), then on the mobile phone; on success the row is appended,
the collection saved, and `next_id` incremented. -/
def Directory.add_record (d : Directory) (input : List String) :
    Directory × AddResult :=
  if input.any (fun v => pyStrip v == "") then (d, .emptyField)
  else
    let record := (nonIDColumns d.data).zip input
    match lookupStr record workPhoneCol with
    | none => (d, .keyError)
    | some w =>
      if !validate_phone w then (d, .invalidPhone)
      else
        match lookupStr record mobilePhoneCol with
        | none => (d, .keyError)
        | some m =>
          if !validate_phone m then (d, .invalidPhone)
          else
            let data' : DF :=
              { columns := d.data.columns,
                rows := d.data.rows ++ [newRowFor d.data record d.next_id] }
            let d' := Directory.doSave { d with data := data' }
            ({ d' with next_id := d.next_id + 1 }, .ok)

/-- One row of `search_records`' boolean mask:
`row.astype(str).str.contains(keyword).any()`. -/
def rowMatches (r : Regex) (row : List Cell) : Bool :=
  row.any (fun cell => reSearchStr r (cellText cell))

/-- `Directory.search_records` on a frame: the keyword is compiled as a
regex and rows with a match in some field are kept in order.  `none`
models the `re.error` a malformed pattern raises; on an empty frame
`DataFrame.apply` never evaluates the lambda, so no pattern is compiled
and the empty frame is returned. -/
def searchDF (df : DF) (keyword : String) : Option DF :=
  match df.rows with
  | [] => some { columns := df.columns, rows := [] }
  | _ :: _ =>
    match parseRegex keyword with
    | none => none
    | some r => some { columns := df.columns, rows := df.rows.filter (rowMatches r) }

/-- `Directory.search_records`. -/
def Directory.search_records (d : Directory) (keyword : String) : Option DF :=
  searchDF d.data keyword

/-- Index of the first occurrence of a column name (`List.length` when
absent, making the corresponding `List.set` a no-op). -/
def idxOfCol : List String → String → Nat
  | [], _ => 0
  | c :: cs, k => if c == k then 0 else idxOfCol cs k + 1

/-- `self.data.at[index, key] = value`: overwrite the cell in column
`key` with the string `value`. -/
def setCol (columns : List String) (row : List Cell) (k v : String) :
    List Cell :=
  row.set (idxOfCol columns k) (Cell.str v)

/-- The candidate-application loop of `edit_record`: empty candidates
are skipped, a non-empty phone candidate failing `validate_phone` aborts
immediately — returning the row as mutated so far and the failing key —
and every other non-empty candidate is written into the row. -/
def applyEdits (columns : List String) :
    List Cell → List (String × String) → List Cell × Option String
  | row, [] => (row, none)
  | row, (k, v) :: rest =>
    if v == "" then applyEdits columns row rest
    else if isPhoneCol k && !validate_phone v then (row, some k)
    else applyEdits columns (setCol columns row k v) rest

/-- `self.data["ID"] == record_id` on one cell (pandas compares the
stored number with the Python int; strings and NaN compare unequal). -/
def cellEqInt (c : Cell) (id : Int) : Bool :=
  match c with
  | .int n => n == id
  | .float n => n == id
  | _ => false

/-- Index of the first list element satisfying the predicate. -/
def findFirstIdx (p : α → Bool) : List α → Option Nat
  | [] => none
  | a :: as => if p a then some 0 else (findFirstIdx p as).map (· + 1)

/-- `self.data[self.data["ID"] == record_id].index`, then `index[0]`:
the first row whose `ID` cell equals `record_id`. -/
def findRowIdx (df : DF) (record_id : Int) : Option Nat :=
  findFirstIdx
    (fun row => cellEqInt (row.getD (idxOfCol df.columns "ID") Cell.nan) record_id)
    df.rows

/-- `Directory.edit_record`.  `cand` lists the candidate values the
interactive supplier returns for the non-`ID` columns in column order.
An unknown id is reported without any state change; otherwise the
candidates are applied in order by `applyEdits`, and the collection is
saved only when no phone candidate was rejected — on rejection the
partially mutated row stays in memory (the source's partial-apply
behaviour). -/
def Directory.edit_record (d : Directory) (record_id : Int)
    (cand : List String) : Directory × EditResult :=
  if !(d.data.columns.contains "ID") then (d, .keyError)
  else
    match findRowIdx d.data record_id with
    | none => (d, .notFound)
    | some i =>
      let row := d.data.rows.getD i []
      let pairs := (nonIDColumns d.data).zip cand
      let res := applyEdits d.data.columns row pairs
      let data' : DF :=
        { columns := d.data.columns, rows := d.data.rows.set i res.1 }
      match res.2 with
      | some k => ({ d with data := data' }, .rejected k)
      | none => (Directory.doSave { d with data := data' }, .ok)

/-- `Directory.__new__` on first construction: load the collection and
set `next_id` to its size plus one (a `read_csv` fault propagates). -/
def Directory.new (st : Storage) : Except LoadErr Directory :=
  (CSVDataStorage.load st).map fun df =>
    { data := df, next_id := (df.rows.length : Int) + 1,
      storage := st, saveLog := [] }

/-! ### Specification-side definitions and invariants -/

/-- Is the first word a prefix of the second? -/
def prefixB : List Char → List Char → Bool
  | [], _ => true
  | _ :: _, [] => false
  | a :: as, b :: bs => a == b && prefixB as bs

/-- Literal substring occurrence: does `k` occur contiguously in the
word? -/
def substrB : List Char → List Char → Bool
  | k, [] => k.isEmpty
  | k, cs@(_ :: cs') => prefixB k cs || substrB k cs'

/-- The regex denoting exactly one literal word. -/
def litRegex (cs : List Char) : Regex :=
  cs.foldr (fun c r => .cat (.chr c) r) .eps

/-- The spec's matching rule for one record: the keyword occurs as a
literal, case-sensitive substring of the text form of some field. -/
def specRowMatches (k : String) (row : List Cell) : Bool :=
  row.any (fun cell => substrB k.data (cellText cell).data)

/-- `SearchRecords` as the spec words it: exactly the literal-substring
matches, in original order. -/
def specSearchRecords (k : String) (df : DF) : DF :=
  { columns := df.columns, rows := df.rows.filter (specRowMatches k) }

/-- The spec's record invariant on one row, paired with the column
names: every non-`ID` field is non-empty after stripping, and the phone
fields consist solely of decimal digits. -/
def rowInvS : List String → List Cell → Bool
  | _, [] => true
  | [], _ :: _ => true
  | c :: cs, x :: xs =>
    (c == "ID" ||
      (pyStrip (cellText x) != "" &&
        (!isPhoneCol c || (cellText x).data.all Char.isDigit))) &&
    rowInvS cs xs

/-- The weakened row invariant the code actually preserves: every
non-`ID` field is a non-empty string (possibly all whitespace), and the
phone fields consist solely of decimal digits. -/
def rowInvW : List String → List Cell → Bool
  | _, [] => true
  | [], _ :: _ => true
  | c :: cs, x :: xs =>
    (c == "ID" ||
      (cellText x != "" &&
        (!isPhoneCol c || (cellText x).data.all Char.isDigit))) &&
    rowInvW cs xs

/-- The spec invariant over a whole store. -/
def invS (d : Directory) : Bool :=
  d.data.rows.all (rowInvS d.data.columns)

/-- The weakened invariant over a whole store. -/
def invW (d : Directory) : Bool :=
  d.data.rows.all (rowInvW d.data.columns)

/-- Apply a list of edit candidates without any validation (used to
state which prefix of the candidates a rejected edit has applied). -/
def applyPlain (columns : List String) (row : List Cell)
    (pairs : List (String × String)) : List Cell :=
  pairs.foldl (fun r p => if p.2 == "" then r else setCol columns r p.1 p.2) row

/-- A candidate pair on which `applyEdits` aborts: a non-empty phone
candidate failing `validate_phone`. -/
def badPair (p : String × String) : Bool :=
  p.2 != "" && isPhoneCol p.1 && !validate_phone p.2

/-- IDs assigned by a sequence of `add_record` calls, in order, one per
successful add. -/
def assignedIds (d : Directory) : List (List String) → List Int
  | [] => []
  | inp :: rest =>
    let p := d.add_record inp
    if p.2 = .ok then d.next_id :: assignedIds p.1 rest
    else assignedIds p.1 rest

/-- Characters the `read_csv` tokenizer may treat as part of a number. -/
def numericishChar (c : Char) : Bool :=
  c.isDigit || c == '.' || c == '-' || c == '+' || c == 'e' || c == 'E' ||
    c == ' ' || c == '\t'

/-- A CSV field whose text survives the save/load round trip: non-empty,
not an NA sentinel, and either the canonical text of an integer or a
string that no numeric inference can touch. -/
def stableText (s : String) : Bool :=
  s != "" && !isNaText s &&
    (match pyIntParse s with
     | some n => toString n == s
     | none => s.data.any (fun c => !numericishChar c))

/-! ### Concrete stores used by counterexamples and witnesses -/

/-- A schema-valid record row. -/
def exRow1 : List Cell :=
  [.int 1, .str "Ivanov", .str "Ivan", .str "Ivanovich", .str "Acme",
   .str "1234567", .str "7654321"]

/-- A one-record frame. -/
def exDF1 : DF := { columns := schemaColumns, rows := [exRow1] }

/-- A store holding `exDF1`. -/
def exDir1 : Directory :=
  { data := exDF1, next_id := 2, storage := CSVDataStorage.save exDF1,
    saveLog := [] }

/-- A freshly constructed empty store. -/
def exDirEmpty : Directory :=
  { data := { columns := schemaColumns, rows := [] }, next_id := 1,
    storage := .absent, saveLog := [] }

/-- A valid `add_record` input. -/
def exInput : List String :=
  ["Ivanov", "Ivan", "Ivanovich", "Acme", "1234567", "7654321"]

/-- A second record row carrying the duplicate `ID` 1 (reachable through
externally written storage under the count-based ID scheme). -/
def exDupRow : List Cell :=
  [.int 1, .str "Petrov", .str "Petr", .str "Petrovich", .str "Beta",
   .str "111", .str "222"]

/-- A store with two records sharing `ID` 1. -/
def exDirDup : Directory :=
  { data := { columns := schemaColumns, rows := [exRow1, exDupRow] },
    next_id := 3, storage := .absent, saveLog := [] }

/-- A frame whose work phone `"007"` is not numeric-inference stable. -/
def exDF007 : DF :=
  { columns := schemaColumns,
    rows := [[.int 1, .str "Ivanov", .str "Ivan", .str "Ivanovich",
              .str "Acme", .str "007", .str "7654321"]] }

/-- What a save/load round trip actually returns for `exDF007`: the
all-digit phone columns come back as integers and `"007"` has become
`7`. -/
def exDF007loaded : DF :=
  { columns := schemaColumns,
    rows := [[.int 1, .str "Ivanov", .str "Ivan", .str "Ivanovich",
              .str "Acme", .int 7, .int 7654321]] }

/-! ### List and string helper lemmas -/

theorem list_set_nil {α : Type} (n : Nat) (a : α) :
    ([] : List α).set n a = [] := by
  cases n <;> rfl

theorem list_set_of_le {α : Type} (l : List α) (a : α) :
    ∀ i, l.length ≤ i → l.set i a = l := by
  induction l with
  | nil => intro i _; cases i <;> rfl
  | cons x xs ih =>
    intro i hi
    cases i with
    | zero => simp at hi
    | succ j => simp only [List.set]; rw [ih j (by simpa using hi)]

theorem list_set_getD_self {α : Type} (l : List α) (d : α) :
    ∀ i, i < l.length → l.set i (l.getD i d) = l := by
  induction l with
  | nil => intro i hi; simp at hi
  | cons x xs ih =>
    intro i hi
    cases i with
    | zero => rfl
    | succ j => simp only [List.getD_cons_succ, List.set]; rw [ih j (by simpa using hi)]

theorem list_all_set {α : Type} (p : α → Bool) (l : List α) (a : α) :
    ∀ i, l.all p = true → p a = true → (l.set i a).all p = true := by
  induction l with
  | nil => intro i _ _; simp
  | cons x xs ih =>
    intro i hl ha
    simp only [List.all_cons, Bool.and_eq_true] at hl
    cases i with
    | zero => simp [List.set, ha, hl.2]
    | succ j => simp [List.set, hl.1, ih j hl.2 ha]

theorem list_getD_set_ne {α : Type} (l : List α) (a d : α) :
    ∀ i n, n ≠ i → (l.set i a).getD n d = l.getD n d := by
  induction l with
  | nil => intro i n _; simp
  | cons x xs ih =>
    intro i n hne
    cases i with
    | zero =>
      cases n with
      | zero => exact absurd rfl hne
      | succ m => rfl
    | succ j =>
      cases n with
      | zero => rfl
      | succ m => simpa using ih j m (fun e => hne (by rw [e]))

theorem list_getD_mem {α : Type} (l : List α) (d : α) :
    ∀ i, i < l.length → l.getD i d ∈ l := by
  induction l with
  | nil => intro i hi; simp at hi
  | cons x xs ih =>
    intro i hi
    cases i with
    | zero => simp
    | succ j => simpa using Or.inr (ih j (by simpa using hi))

theorem list_getD_map {α β : Type} (f : α → β) (l : List α) (d1 : β) (d2 : α) :
    ∀ i, i < l.length → (l.map f).getD i d1 = f (l.getD i d2) := by
  induction l with
  | nil => intro i hi; simp at hi
  | cons x xs ih =>
    intro i hi
    cases i with
    | zero => rfl
    | succ j => simpa using ih j (by simpa using hi)

theorem pyStrip_eq_empty_of_eq_empty {s : String} (h : s = "") : pyStrip s = "" := by
  rw [h]; rfl

theorem digit_not_whitespace {c : Char} (h : c.isDigit = true) :
    c.isWhitespace = false := by
  cases hw : c.isWhitespace with
  | false => rfl
  | true =>
    simp only [Char.isWhitespace, Bool.or_eq_true, decide_eq_true_eq] at hw
    rcases hw with ((rfl | rfl) | rfl) | rfl <;> exact absurd h (by decide)

theorem pyStrip_digits {s : String} (h : s.data.all Char.isDigit = true) :
    pyStrip s = s := by
  have hnw : ∀ cs : List Char, cs.all Char.isDigit = true →
      cs.dropWhile Char.isWhitespace = cs := by
    intro cs hcs
    cases cs with
    | nil => rfl
    | cons c cs' =>
      simp only [List.all_cons, Bool.and_eq_true] at hcs
      simp [List.dropWhile, digit_not_whitespace hcs.1]
  obtain ⟨cs⟩ := s
  simp only [pyStrip, pyStripList]
  rw [hnw cs h, hnw cs.reverse (by simpa using h), List.reverse_reverse]

theorem string_ne_empty_iff {s : String} : s ≠ "" ↔ s.data ≠ [] := by
  rw [ne_eq, ne_eq, String.ext_iff]

theorem pyIsdigit_parts {s : String} (h : pyIsdigit s = true) :
    s ≠ "" ∧ s.data.all Char.isDigit = true := by
  simp only [pyIsdigit, Bool.and_eq_true, Bool.not_eq_true'] at h
  refine ⟨string_ne_empty_iff.mpr ?_, h.2⟩
  intro he
  rw [he] at h
  simp at h

/-! ### Regex matcher lemmas: literal patterns search as substrings -/

theorem matchHere_alt (a b : Regex) :
    ∀ cs, matchHere (.alt a b) cs = (matchHere a cs || matchHere b cs) := by
  intro cs
  induction cs generalizing a b with
  | nil => rfl
  | cons c cs ih =>
    simp only [matchHere, deriv, nullable, ih]
    cases nullable a <;> cases nullable b <;>
      simp [Bool.or_assoc, Bool.or_comm, Bool.or_left_comm]

theorem matchHere_catEmp (r : Regex) :
    ∀ cs, matchHere (.cat .emp r) cs = false := by
  intro cs
  induction cs generalizing r with
  | nil => rfl
  | cons c cs ih => simp [matchHere, deriv, nullable, ih]

theorem matchHere_catEps (r : Regex) :
    ∀ cs, matchHere (.cat .eps r) cs = matchHere r cs := by
  intro cs
  induction cs generalizing r with
  | nil => simp [matchHere, nullable]
  | cons c cs ih =>
    simp [matchHere, deriv, nullable, matchHere_alt, matchHere_catEmp]

theorem nullable_lit (ds : List Char) : nullable (litRegex ds) = ds.isEmpty := by
  cases ds <;> rfl

theorem matchHere_lit (ds : List Char) :
    ∀ cs, matchHere (litRegex ds) cs = prefixB ds cs := by
  induction ds with
  | nil =>
    intro cs
    cases cs with
    | nil => rfl
    | cons c cs => simp [litRegex, matchHere, nullable, prefixB]
  | cons d ds ih =>
    intro cs
    cases cs with
    | nil => rfl
    | cons c cs =>
      show (nullable _ || matchHere (deriv (.cat (.chr d) (litRegex ds)) c) cs) = _
      by_cases h : c = d
      · subst h
        have hstep : deriv (.cat (.chr c) (litRegex ds)) c = .cat .eps (litRegex ds) := by
          simp [deriv, nullable]
        rw [hstep, matchHere_catEps, ih]
        simp [nullable, prefixB]
      · have hne : (d == c) = false := by
          simp only [beq_eq_false_iff_ne]; exact fun e => h e.symm
        have hstep : deriv (.cat (.chr d) (litRegex ds)) c = .cat .emp (litRegex ds) := by
          simp [deriv, nullable, h]
        rw [hstep]
        simp [nullable, matchHere_catEmp, prefixB, hne]

theorem reSearch_lit (ds : List Char) :
    ∀ cs, reSearch (litRegex ds) cs = substrB ds cs := by
  intro cs
  induction cs with
  | nil => simp [reSearch, substrB, nullable_lit]
  | cons c cs ih => simp [reSearch, substrB, matchHere_lit, ih]

/-! ### Parser lemmas: keywords of ordinary characters parse literally -/

theorem parseAtom_nil (f : Nat) : parseAtom f [] = none := by
  cases f <;> rfl

theorem parseRep_nil (f : Nat) : parseRep f [] = none := by
  cases f with
  | zero => rfl
  | succ g => simp [parseRep, parseAtom_nil]

theorem parseCat_nil (f : Nat) (h : 1 ≤ f) : parseCat f [] = some (.eps, []) := by
  cases f with
  | zero => simp at h
  | succ g => simp [parseCat, parseRep_nil]

theorem metaContains_false {c : Char} (h : ordinaryChar c = true) :
    metaChars.contains c = false := by
  simp only [ordinaryChar, Bool.not_eq_true'] at h
  exact h

theorem ordinary_not_mem {c : Char} (h : ordinaryChar c = true) :
    c ∉ metaChars := by
  intro hm
  have hc : metaChars.contains c = true := by
    simpa using hm
  rw [metaContains_false h] at hc
  cases hc

theorem ordinary_ne {c x : Char} (hx : x ∈ metaChars)
    (h : ordinaryChar c = true) : ¬(c = x) := by
  intro e
  subst e
  exact ordinary_not_mem h hx

theorem parseAtom_ord (f : Nat) {c : Char} (cs : List Char)
    (h : ordinaryChar c = true) :
    parseAtom (f + 1) (c :: cs) = some (.chr c, cs) := by
  have h1 : ¬(c = '(') := ordinary_ne (by decide) h
  have h2 : ¬(c = '.') := ordinary_ne (by decide) h
  have h3 : ¬(c = '\\') := ordinary_ne (by decide) h
  have hm := ordinary_not_mem h
  simp [parseAtom, h1, h2, h3, hm]

theorem applyReps_stop (r : Regex) (cs : List Char)
    (h : cs.all ordinaryChar = true) : applyReps r cs = (r, cs) := by
  cases cs with
  | nil => rfl
  | cons c cs' =>
    simp only [List.all_cons, Bool.and_eq_true] at h
    have h1 : ¬(c = '*') := ordinary_ne (by decide) h.1
    have h2 : ¬(c = '+') := ordinary_ne (by decide) h.1
    have h3 : ¬(c = '?') := ordinary_ne (by decide) h.1
    simp [applyReps, h1, h2, h3]

theorem parseCat_lit : ∀ (cs : List Char) (f : Nat),
    cs.all ordinaryChar = true → cs.length + 3 ≤ f →
    parseCat f cs = some (litRegex cs, []) := by
  intro cs
  induction cs with
  | nil =>
    intro f _ hf
    rw [parseCat_nil f (by omega)]
    rfl
  | cons c cs ih =>
    intro f hall hf
    simp only [List.all_cons, Bool.and_eq_true] at hall
    simp only [List.length_cons] at hf
    obtain ⟨g, rfl⟩ : ∃ g, f = g + 1 := ⟨f - 1, by omega⟩
    obtain ⟨g1, rfl⟩ : ∃ g1, g = g1 + 1 := ⟨g - 1, by omega⟩
    obtain ⟨g2, rfl⟩ : ∃ g2, g1 = g2 + 1 := ⟨g1 - 1, by omega⟩
    have hrep : parseRep (g2 + 1 + 1) (c :: cs) = some (.chr c, cs) := by
      simp [parseRep, parseAtom_ord g2 cs hall.1, applyReps_stop _ _ hall.2]
    have hcat : parseCat (g2 + 1 + 1) cs = some (litRegex cs, []) :=
      ih _ hall.2 (by omega)
    conv_lhs => rw [parseCat]
    simp only [hrep, hcat]
    rfl

theorem parseAlt_lit (cs : List Char) (f : Nat)
    (hall : cs.all ordinaryChar = true) (hf : cs.length + 4 ≤ f) :
    parseAlt f cs = some (litRegex cs, []) := by
  obtain ⟨g, rfl⟩ : ∃ g, f = g + 1 := ⟨f - 1, by omega⟩
  have hcat := parseCat_lit cs g hall (by omega)
  simp [parseAlt, hcat]

theorem parseRegex_lit (s : String) (h : s.data.all ordinaryChar = true) :
    parseRegex s = some (litRegex s.data) := by
  unfold parseRegex
  rw [parseAlt_lit s.data _ h (by omega)]

theorem rowMatches_lit (k : String) (row : List Cell) :
    rowMatches (litRegex k.data) row = specRowMatches k row := by
  simp [rowMatches, specRowMatches, reSearchStr, reSearch_lit]

/-! ### Lemmas about the edit loop and the record invariants -/

theorem lookupStr_mem : ∀ (ps : List (String × String)) (key v : String),
    lookupStr ps key = some v → (key, v) ∈ ps := by
  intro ps
  induction ps with
  | nil => intro key v h; simp [lookupStr] at h
  | cons p ps ih =>
    intro key v h
    obtain ⟨k, w⟩ := p
    simp only [lookupStr] at h
    by_cases e : (k == key) = true
    · rw [if_pos e] at h
      obtain rfl : w = v := by injection h
      obtain rfl : k = key := by simpa using e
      simp
    · rw [if_neg e] at h
      simp [ih key v h]

theorem applyEdits_all_empty (columns : List String) :
    ∀ (pairs : List (String × String)) (row : List Cell),
    (∀ p ∈ pairs, p.2 = "") → applyEdits columns row pairs = (row, none) := by
  intro pairs
  induction pairs with
  | nil => intro row _; rfl
  | cons p rest ih =>
    intro row hall
    obtain ⟨k, v⟩ := p
    have hv : v = "" := hall (k, v) (by simp)
    simp [applyEdits, hv, ih _ (fun q hq => hall q (by simp [hq]))]

theorem badPair_parts {k v : String} (h : badPair (k, v) = true) :
    v ≠ "" ∧ isPhoneCol k = true ∧ validate_phone v = false := by
  simp only [badPair, Bool.and_eq_true, bne_iff_ne, ne_eq,
    Bool.not_eq_true'] at h
  exact ⟨h.1.1, h.1.2, h.2⟩

theorem applyEdits_bad (columns : List String) :
    ∀ (pairs : List (String × String)) (row : List Cell),
    pairs.any badPair = true →
    applyEdits columns row pairs =
      (applyPlain columns row (pairs.take (pairs.findIdx badPair)),
       some ((pairs.getD (pairs.findIdx badPair) ("", "")).1)) := by
  intro pairs
  induction pairs with
  | nil => intro row h; simp at h
  | cons p rest ih =>
    intro row hany
    obtain ⟨k, v⟩ := p
    by_cases hb : badPair (k, v) = true
    · obtain ⟨hvne, hph, hval⟩ := badPair_parts hb
      have hv : (v == "") = false := by simpa using hvne
      simp [applyEdits, hv, hph, hval, List.findIdx_cons, hb, applyPlain]
    · have hrest : rest.any badPair = true := by
        simp only [List.any_cons, Bool.or_eq_true] at hany
        rcases hany with h | h
        · exact absurd h hb
        · exact h
      have hbf : badPair (k, v) = false := by simpa using hb
      by_cases hv : (v == "") = true
      · obtain rfl : v = "" := by simpa using hv
        rw [List.findIdx_cons]
        simp [applyEdits, hbf, ih _ hrest, applyPlain, List.getD_cons_succ]
      · have hcant : (isPhoneCol k && !validate_phone v) = false := by
          simp only [badPair, Bool.and_eq_true, Bool.not_eq_true] at hb ⊢
          cases hip : isPhoneCol k with
          | false => rfl
          | true =>
            simp only [Bool.true_and]
            by_cases hval : validate_phone v = true
            · simp [hval]
            · exfalso
              apply hb
              refine ⟨⟨by simpa using hv, hip⟩, by simpa using hval⟩
        have hvne : ¬(v = "") := by simpa using hv
        rw [List.findIdx_cons]
        simp [applyEdits, hv, hbf, hcant, ih _ hrest, applyPlain, hvne,
          List.getD_cons_succ]

theorem rowInvW_of_rowInvS : ∀ (cols : List String) (row : List Cell),
    rowInvS cols row = true → rowInvW cols row = true := by
  intro cols
  induction cols with
  | nil => intro row _; cases row <;> rfl
  | cons c cs ih =>
    intro row h
    cases row with
    | nil => rfl
    | cons x xs =>
      simp only [rowInvS, rowInvW, Bool.and_eq_true, Bool.or_eq_true] at h ⊢
      refine ⟨?_, ih xs h.2⟩
      rcases h.1 with hid | hrest
      · exact Or.inl hid
      · refine Or.inr ?_
        refine ⟨?_, hrest.2⟩
        have h1 := hrest.1
        simp only [bne_iff_ne, ne_eq] at h1 ⊢
        intro he
        exact h1 (by rw [he]; rfl)

theorem rowInvW_setCol : ∀ (cols : List String) (row : List Cell) (k v : String),
    rowInvW cols row = true → v ≠ "" →
    (isPhoneCol k = true → pyIsdigit v = true) →
    rowInvW cols (setCol cols row k v) = true := by
  intro cols
  induction cols with
  | nil =>
    intro row k v _ _ _
    cases hs : setCol [] row k v <;> rfl
  | cons c cs ih =>
    intro row k v h hv hph
    cases row with
    | nil =>
      show rowInvW (c :: cs)
        (([] : List Cell).set (idxOfCol (c :: cs) k) (Cell.str v)) = true
      rw [list_set_nil]
      rfl
    | cons x xs =>
      simp only [setCol, idxOfCol]
      by_cases he : (c == k) = true
      · rw [if_pos he]
        simp only [List.set_cons_zero]
        simp only [rowInvW, Bool.and_eq_true] at h ⊢
        refine ⟨?_, h.2⟩
        have hck : c = k := by simpa using he
        simp only [Bool.or_eq_true, Bool.and_eq_true]
        by_cases hid : (c == "ID") = true
        · exact Or.inl hid
        · refine Or.inr ⟨by simpa [cellText, bne_iff_ne] using hv, ?_⟩
          simp only [Bool.or_eq_true, Bool.not_eq_true']
          by_cases hp : isPhoneCol c = true
          · exact Or.inr (by simpa [cellText] using (pyIsdigit_parts (hph (hck ▸ hp))).2)
          · exact Or.inl (by simpa using hp)
      · rw [if_neg he]
        simp only [List.set_cons_succ]
        simp only [rowInvW, Bool.and_eq_true] at h ⊢
        exact ⟨h.1, ih xs k v h.2 hv hph⟩

theorem idxOfCol_lt : ∀ (cols : List String) (k : String),
    k ∈ cols → idxOfCol cols k < cols.length := by
  intro cols
  induction cols with
  | nil => intro k h; simp at h
  | cons c cs ih =>
    intro k h
    simp only [idxOfCol]
    by_cases e : (c == k) = true
    · simp [e]
    · rw [if_neg e]
      have hk : k ∈ cs := by
        rcases List.mem_cons.mp h with rfl | hk
        · exact absurd (by simp) e
        · exact hk
      simpa using Nat.succ_lt_succ (ih k hk)

theorem idxOfCol_getD : ∀ (cols : List String) (k : String),
    k ∈ cols → cols.getD (idxOfCol cols k) "" = k := by
  intro cols
  induction cols with
  | nil => intro k h; simp at h
  | cons c cs ih =>
    intro k h
    simp only [idxOfCol]
    by_cases e : (c == k) = true
    · rw [if_pos e]
      simpa using e
    · rw [if_neg e]
      have hk : k ∈ cs := by
        rcases List.mem_cons.mp h with rfl | hk
        · exact absurd (by simp) e
        · exact hk
      simpa using ih k hk

theorem findFirstIdx_lt {α : Type} (p : α → Bool) :
    ∀ (l : List α) (i : Nat), findFirstIdx p l = some i → i < l.length := by
  intro l
  induction l with
  | nil => intro i h; simp [findFirstIdx] at h
  | cons a as ih =>
    intro i h
    simp only [findFirstIdx] at h
    by_cases hp : p a = true
    · rw [if_pos hp] at h
      obtain rfl : (0 : Nat) = i := by injection h
      simp
    · rw [if_neg hp] at h
      cases hfa : findFirstIdx p as with
      | none => rw [hfa] at h; simp at h
      | some j =>
        rw [hfa] at h
        simp only [Option.map_some'] at h
        obtain rfl : j + 1 = i := by injection h
        simpa using Nat.succ_lt_succ (ih j hfa)

theorem no_blank_of_any_false {inp : List String}
    (h : (inp.any fun v => pyStrip v == "") = false)
    {v : String} (hv : v ∈ inp) : pyStrip v ≠ "" := by
  intro he
  have hh : inp.any (fun v => pyStrip v == "") = true := by
    simp only [List.any_eq_true]
    exact ⟨v, hv, by simp [he]⟩
  rw [hh] at h
  cases h

theorem isPhoneCol_cases {c : String} (h : isPhoneCol c = true) :
    c = workPhoneCol ∨ c = mobilePhoneCol := by
  simp only [isPhoneCol, Bool.or_eq_true, beq_iff_eq] at h
  exact h

theorem rowInvS_map : ∀ (cols : List String) (f : String → Cell),
    (∀ c ∈ cols, (c == "ID") = true ∨
      (pyStrip (cellText (f c)) ≠ "" ∧
        (isPhoneCol c = true → (cellText (f c)).data.all Char.isDigit = true))) →
    rowInvS cols (cols.map f) = true := by
  intro cols
  induction cols with
  | nil => intro f _; rfl
  | cons c cs ih =>
    intro f h
    simp only [List.map_cons, rowInvS, Bool.and_eq_true]
    refine ⟨?_, ih f (fun c' hc' => h c' (by simp [hc']))⟩
    rcases h c (by simp) with hid | ⟨hne, hph⟩
    · simp [hid]
    · simp only [Bool.or_eq_true, Bool.and_eq_true]
      refine Or.inr ⟨by simpa [bne_iff_ne] using hne, ?_⟩
      simp only [Bool.or_eq_true, Bool.not_eq_true']
      by_cases hp : isPhoneCol c = true
      · exact Or.inr (hph hp)
      · exact Or.inl (by simpa using hp)

theorem rowInvW_applyEdits (cols : List String) :
    ∀ (pairs : List (String × String)) (row : List Cell),
    rowInvW cols row = true → rowInvW cols (applyEdits cols row pairs).1 = true := by
  intro pairs
  induction pairs with
  | nil => intro row h; exact h
  | cons p rest ih =>
    intro row h
    obtain ⟨k, v⟩ := p
    by_cases hv : (v == "") = true
    · simpa [applyEdits, hv] using ih row h
    · by_cases hbad : (isPhoneCol k && !validate_phone v) = true
      · simpa [applyEdits, hv, hbad] using h
      · have hvne : v ≠ "" := by simpa using hv
        have hph : isPhoneCol k = true → pyIsdigit v = true := by
          intro hp
          simp only [hp, Bool.true_and, Bool.not_eq_true] at hbad
          simpa [validate_phone] using hbad
        simpa [applyEdits, hv, hbad] using
          ih _ (rowInvW_setCol cols row k v h hvne hph)

/-! ### Lemmas about `add_record` -/

theorem add_newRow_invS (df : DF) (inp : List String) (id : Int) (w m : String)
    (hblank : (inp.any fun v => pyStrip v == "") = false)
    (hw : lookupStr ((nonIDColumns df).zip inp) workPhoneCol = some w)
    (hmo : lookupStr ((nonIDColumns df).zip inp) mobilePhoneCol = some m)
    (hvw : validate_phone w = true) (hvm : validate_phone m = true) :
    rowInvS df.columns (newRowFor df ((nonIDColumns df).zip inp) id) = true := by
  unfold newRowFor
  apply rowInvS_map
  intro c _
  by_cases hid : (c == "ID") = true
  · exact Or.inl hid
  · refine Or.inr ?_
    cases hlk : lookupStr ((nonIDColumns df).zip inp) c with
    | some v =>
      have hvmem : v ∈ inp := (List.of_mem_zip (lookupStr_mem _ _ _ hlk)).2
      have hvs : pyStrip v ≠ "" := no_blank_of_any_false hblank hvmem
      refine ⟨by simpa [hid, hlk, cellText] using hvs, ?_⟩
      intro hp
      rcases isPhoneCol_cases hp with rfl | rfl
      · obtain rfl : v = w := by
          have := hlk.symm.trans hw
          injection this
        simpa [hid, hlk, cellText] using (pyIsdigit_parts hvw).2
      · obtain rfl : v = m := by
          have := hlk.symm.trans hmo
          injection this
        simpa [hid, hlk, cellText] using (pyIsdigit_parts hvm).2
    | none =>
      refine ⟨by simp [hid, hlk, cellText]; decide, ?_⟩
      intro hp
      rcases isPhoneCol_cases hp with rfl | rfl
      · rw [hlk] at hw; cases hw
      · rw [hlk] at hmo; cases hmo

theorem add_record_ok_or_fail (d : Directory) (inp : List String) :
    ((d.add_record inp).2 = .ok ∧
      (d.add_record inp).1.next_id = d.next_id + 1) ∨
    ((d.add_record inp).2 ≠ .ok ∧ (d.add_record inp).1 = d) := by
  by_cases h1 : (inp.any fun v => pyStrip v == "") = true
  · exact Or.inr (by simp [Directory.add_record, h1])
  · simp only [Bool.not_eq_true] at h1
    cases hw : lookupStr ((nonIDColumns d.data).zip inp) workPhoneCol with
    | none => exact Or.inr (by simp [Directory.add_record, h1, hw])
    | some w =>
      by_cases hvw : validate_phone w = true
      · cases hmo : lookupStr ((nonIDColumns d.data).zip inp) mobilePhoneCol with
        | none => exact Or.inr (by simp [Directory.add_record, h1, hw, hvw, hmo])
        | some m =>
          by_cases hvm : validate_phone m = true
          · exact Or.inl (by simp [Directory.add_record, h1, hw, hvw, hmo, hvm,
              Directory.doSave])
          · exact Or.inr (by simp [Directory.add_record, h1, hw, hvw, hmo, hvm])
      · exact Or.inr (by simp [Directory.add_record, h1, hw, hvw])

theorem assignedIds_getD : ∀ (inps : List (List String)) (d : Directory) (n : Nat),
    n < (assignedIds d inps).length →
    (assignedIds d inps).getD n 0 = d.next_id + n := by
  intro inps
  induction inps with
  | nil => intro d n h; simp [assignedIds] at h
  | cons inp rest ih =>
    intro d n h
    rcases add_record_ok_or_fail d inp with ⟨hok, hnext⟩ | ⟨hfail, hfst⟩
    · simp only [assignedIds, hok, if_pos] at h ⊢
      cases n with
      | zero => simp
      | succ mm =>
        simp only [List.getD_cons_succ]
        have hlen : mm < (assignedIds (d.add_record inp).1 rest).length := by
          simp only [List.length_cons] at h
          omega
        rw [ih _ mm hlen, hnext]
        push_cast
        ring
    · have hne : ¬((d.add_record inp).2 = .ok) := hfail
      simp only [assignedIds, if_neg hne] at h ⊢
      rw [hfst] at h ⊢
      exact ih d n h

theorem add_record_ok_last (d : Directory) (inp : List String)
    (hok : (d.add_record inp).2 = .ok)
    (hid : "ID" ∈ d.data.columns) :
    ((d.add_record inp).1.data.rows.getLast?.getD []).getD
      (idxOfCol d.data.columns "ID") Cell.nan = Cell.int d.next_id := by
  by_cases h1 : (inp.any fun v => pyStrip v == "") = true
  · rw [show (d.add_record inp).2 = .emptyField by simp [Directory.add_record, h1]] at hok
    cases hok
  · simp only [Bool.not_eq_true] at h1
    cases hw : lookupStr ((nonIDColumns d.data).zip inp) workPhoneCol with
    | none =>
      rw [show (d.add_record inp).2 = .keyError by
        simp [Directory.add_record, h1, hw]] at hok
      cases hok
    | some w =>
      by_cases hvw : validate_phone w = true
      · cases hmo : lookupStr ((nonIDColumns d.data).zip inp) mobilePhoneCol with
        | none =>
          rw [show (d.add_record inp).2 = .keyError by
            simp [Directory.add_record, h1, hw, hvw, hmo]] at hok
          cases hok
        | some m =>
          by_cases hvm : validate_phone m = true
          · have hrows : (d.add_record inp).1.data.rows =
                d.data.rows ++
                  [newRowFor d.data ((nonIDColumns d.data).zip inp) d.next_id] := by
              simp [Directory.add_record, h1, hw, hvw, hmo, hvm, Directory.doSave]
            rw [hrows, List.getLast?_concat]
            simp only [Option.getD_some]
            unfold newRowFor
            rw [list_getD_map _ _ _ "" _ (idxOfCol_lt _ _ hid),
              idxOfCol_getD _ _ hid]
            simp
          · rw [show (d.add_record inp).2 = .invalidPhone by
              simp [Directory.add_record, h1, hw, hvw, hmo, hvm]] at hok
            cases hok
      · rw [show (d.add_record inp).2 = .invalidPhone by
          simp [Directory.add_record, h1, hw, hvw]] at hok
        cases hok

theorem edit_record_found (d : Directory) (id : Int) (cand : List String)
    (i : Nat) (hid : d.data.columns.contains "ID" = true)
    (hsome : findRowIdx d.data id = some i) :
    d.edit_record id cand =
      (match (applyEdits d.data.columns (d.data.rows.getD i [])
          ((nonIDColumns d.data).zip cand)).2 with
       | some k =>
         (d.withRows (d.data.rows.set i
            (applyEdits d.data.columns (d.data.rows.getD i [])
              ((nonIDColumns d.data).zip cand)).1), .rejected k)
       | none =>
         (Directory.doSave (d.withRows (d.data.rows.set i
            (applyEdits d.data.columns (d.data.rows.getD i [])
              ((nonIDColumns d.data).zip cand)).1)), .ok)) := by
  have hidm : "ID" ∈ d.data.columns := by simpa using hid
  simp [Directory.edit_record, Directory.withRows, hid, hidm, hsome]

/-! ### Claim theorems -/

/-- C3: the phone validation predicate accepts a string iff it is
non-empty and consists solely of decimal digit characters.  (The model
reads Python's `str.isdigit` over the decimal digits; Python would also
accept certain exotic Unicode digit characters.) -/
theorem claim_C3 (p : String) :
    validate_phone p = true ↔ (p ≠ "" ∧ ∀ c ∈ p.data, c.isDigit = true) := by
  simp only [validate_phone, pyIsdigit, Bool.and_eq_true, Bool.not_eq_true',
    List.all_eq_true, string_ne_empty_iff]
  constructor
  · rintro ⟨h1, h2⟩
    refine ⟨?_, h2⟩
    intro he
    rw [he] at h1
    cases h1
  · rintro ⟨h1, h2⟩
    refine ⟨?_, h2⟩
    cases hd : p.data with
    | nil => exact absurd hd h1
    | cons c cs => rfl

/-- C8 (amended): `load` on absent storage returns the empty collection
with the fixed seven-column schema, and a header-only file loads as an
empty collection with that header; a present but zero-byte file,
however, raises `EmptyDataError` (see the counterexample). -/
theorem claim_C8 :
    CSVDataStorage.load .absent = .ok { columns := schemaColumns, rows := [] } ∧
    ∀ header : List String,
      CSVDataStorage.load (.file header []) =
        .ok { columns := header, rows := [] } := by
  refine ⟨rfl, fun header => ?_⟩
  simp [CSVDataStorage.load, convertRows]

/-- C8 counterexample: on existing-but-empty (zero-byte) storage, `load`
fails with `EmptyDataError` instead of returning an empty collection —
only `FileNotFoundError` is caught in the source. -/
theorem claim_C8_counterexample :
    CSVDataStorage.load .emptyFile = .error .emptyData ∧
    ∀ df : DF, CSVDataStorage.load .emptyFile ≠ .ok df :=
  ⟨rfl, fun _ h => Except.noConfusion h⟩

/-- C2 (amended): for every keyword consisting solely of ordinary
characters (no regex metacharacters), `search_records` returns exactly
the records with a literal, case-sensitive substring match in the text
form of some field (the ID included), in original order; the empty
keyword is such a keyword and matches every record.  Keywords are in
fact compiled as regular expressions (`str.contains` defaults to
`regex=True`), so metacharacter keywords diverge from literal substring
search (see the counterexample). -/
theorem claim_C2 (d : Directory) (k : String)
    (hk : k.data.all ordinaryChar = true) :
    d.search_records k = some (specSearchRecords k d.data) := by
  show searchDF d.data k = _
  obtain ⟨cols, rows⟩ := d.data
  cases rows with
  | nil => simp [searchDF, specSearchRecords]
  | cons r rs =>
    simp only [searchDF, parseRegex_lit k hk]
    have hrm : rowMatches (litRegex k.data) = specRowMatches k := by
      funext row
      exact rowMatches_lit k row
    rw [hrm]
    rfl

/-- C2 witness: `claim_C2` at the keyword `"Acme"` on the one-record
store. -/
theorem claim_C2_witness :
    exDir1.search_records "Acme" = some (specSearchRecords "Acme" exDir1.data) :=
  claim_C2 exDir1 "Acme" (by decide)

/-- C2 counterexample: the keyword `"."` is treated as a regex — it
matches the record even though none of the record's fields contains a
literal `"."`, so `SearchRecords` does not return the literal-substring
subset the claim describes. -/
theorem claim_C2_counterexample :
    exDir1.search_records "." = some exDF1 ∧
    specSearchRecords "." exDF1 = { columns := schemaColumns, rows := [] } ∧
    exDF1.rows ≠ [] :=
  ⟨by decide, by decide, by decide⟩

/-- C5: an `add_record` input failing validation (a blank field, or a
non-digit character in a phone field) is rejected with the whole store —
collection, `next_id`, storage and save log — unchanged, and the
blank-field check is performed before the phone check. -/
theorem claim_C5 (d : Directory) (inp : List String) (w m : String)
    (hw : lookupStr ((nonIDColumns d.data).zip inp) workPhoneCol = some w)
    (hmo : lookupStr ((nonIDColumns d.data).zip inp) mobilePhoneCol = some m)
    (hbad : (inp.any fun v => pyStrip v == "") = true ∨
      validate_phone w = false ∨ validate_phone m = false) :
    d.add_record inp =
      (d, if (inp.any fun v => pyStrip v == "") = true
          then .emptyField else .invalidPhone) := by
  by_cases h1 : (inp.any fun v => pyStrip v == "") = true
  · simp [Directory.add_record, h1]
  · rw [if_neg h1]
    simp only [Bool.not_eq_true] at h1
    rcases hbad with hb | hb | hb
    · rw [h1] at hb
      cases hb
    · simp [Directory.add_record, h1, hw, hb]
    · by_cases hvw : validate_phone w = true
      · simp [Directory.add_record, h1, hw, hvw, hmo, hb]
      · simp [Directory.add_record, h1, hw, hvw]

/-- C5 witness: `claim_C5` on a concrete input with a non-digit work
phone. -/
theorem claim_C5_witness :
    exDir1.add_record ["Ivanov", "Ivan", "Ivanovich", "Acme", "12a", "77"] =
      (exDir1, .invalidPhone) := by
  have h := claim_C5 exDir1 ["Ivanov", "Ivan", "Ivanovich", "Acme", "12a", "77"]
    "12a" "77" (by decide) (by decide) (Or.inr (Or.inl (by decide)))
  rwa [if_neg (by decide)] at h

/-- C7: editing an existing record with a supplier that returns the
empty string for every non-ID column leaves the whole store's data
unchanged, reports success, and still performs a `save` of the unchanged
collection (`doSave` overwrites storage with the current data and logs
the call). -/
theorem claim_C7 (d : Directory) (id : Int) (cand : List String) (i : Nat)
    (hempty : ∀ v ∈ cand, v = "")
    (hid : d.data.columns.contains "ID" = true)
    (hfound : findRowIdx d.data id = some i) :
    d.edit_record id cand = (d.doSave, .ok) := by
  have hlt : i < d.data.rows.length := findFirstIdx_lt _ _ _ hfound
  have hpairs : ∀ p ∈ (nonIDColumns d.data).zip cand, p.2 = "" := by
    intro p hp
    exact hempty p.2 (List.of_mem_zip hp).2
  rw [edit_record_found d id cand i hid hfound,
    applyEdits_all_empty d.data.columns _ _ hpairs]
  show ((d.withRows (d.data.rows.set i (d.data.rows.getD i []))).doSave,
    EditResult.ok) = (d.doSave, EditResult.ok)
  rw [list_set_getD_self _ _ i hlt]
  rfl

/-- C7 witness: `claim_C7` on the one-record store with all-empty
candidates. -/
theorem claim_C7_witness :
    exDir1.edit_record 1 ["", "", "", "", "", ""] = (exDir1.doSave, .ok) :=
  claim_C7 exDir1 1 ["", "", "", "", "", ""] 0 (by decide) (by decide) (by decide)

/-- C10: `edit_record` with an unknown id reports not-found with no
state change and no save; with a known id — even one duplicated across
several records, as the count-based ID generation permits — it modifies
only the first record in collection order whose ID matches, leaving
every other row (in particular later rows with the same ID) unchanged. -/
theorem claim_C10 (d : Directory) (id : Int) (cand : List String)
    (hid : d.data.columns.contains "ID" = true) :
    (findRowIdx d.data id = none → d.edit_record id cand = (d, .notFound)) ∧
    (∀ i, findRowIdx d.data id = some i →
      (d.edit_record id cand).1.data.columns = d.data.columns ∧
      ∀ n, n ≠ i →
        (d.edit_record id cand).1.data.rows.getD n [] =
          d.data.rows.getD n []) := by
  constructor
  · intro hnone
    have hidm : "ID" ∈ d.data.columns := by simpa using hid
    simp [Directory.edit_record, hid, hidm, hnone]
  · intro i hsome
    rw [edit_record_found d id cand i hid hsome]
    cases hres : (applyEdits d.data.columns (d.data.rows.getD i [])
        ((nonIDColumns d.data).zip cand)).2 with
    | some k =>
      simp only [hres]
      exact ⟨rfl, fun n hn => list_getD_set_ne _ _ _ _ _ hn⟩
    | none =>
      simp only [hres]
      exact ⟨rfl, fun n hn => list_getD_set_ne _ _ _ _ _ hn⟩

/-- C10 witness: on a store with two records both carrying ID 1, editing
id 1 leaves the second (duplicate) row unchanged, and editing the absent
id 99 is a no-op reported as not-found. -/
theorem claim_C10_witness :
    (exDirDup.edit_record 1 ["X", "", "", "", "", ""]).1.data.rows.getD 1 [] =
      exDirDup.data.rows.getD 1 [] ∧
    exDirDup.edit_record 99 ["X", "", "", "", "", ""] = (exDirDup, .notFound) :=
  ⟨((claim_C10 exDirDup 1 ["X", "", "", "", "", ""] (by decide)).2 0
      (by decide)).2 1 (by decide),
   (claim_C10 exDirDup 99 ["X", "", "", "", "", ""] (by decide)).1 (by decide)⟩

/-- C6: an edit of an existing record in which some non-empty phone
candidate fails the digits-only check aborts with a rejection naming the
first failing field; the candidates before that field stay applied to
the in-memory record (no rollback), no later candidate is applied, and
no save is performed (storage and save log are untouched). -/
theorem claim_C6 (d : Directory) (id : Int) (cand : List String) (i : Nat)
    (hid : d.data.columns.contains "ID" = true)
    (hsome : findRowIdx d.data id = some i)
    (hbad : ((nonIDColumns d.data).zip cand).any badPair = true) :
    d.edit_record id cand =
      (d.withRows (d.data.rows.set i
         (applyPlain d.data.columns (d.data.rows.getD i [])
           (((nonIDColumns d.data).zip cand).take
             (((nonIDColumns d.data).zip cand).findIdx badPair)))),
       .rejected ((((nonIDColumns d.data).zip cand).getD
          (((nonIDColumns d.data).zip cand).findIdx badPair) ("", "")).1)) := by
  rw [edit_record_found d id cand i hid hsome,
    applyEdits_bad d.data.columns _ _ hbad]

/-- C6 witness: `claim_C6` on the one-record store, valid work-phone
candidate and invalid mobile candidate: organisation and work phone are
applied in memory, the result is a rejection naming the mobile column,
and no save happens. -/
theorem claim_C6_witness :
    exDir1.edit_record 1 ["", "", "", "New", "123", "12a"] =
      (exDir1.withRows [[Cell.int 1, Cell.str "Ivanov", Cell.str "Ivan",
          Cell.str "Ivanovich", Cell.str "New", Cell.str "123",
          Cell.str "7654321"]],
       .rejected mobilePhoneCol) :=
  (claim_C6 exDir1 1 ["", "", "", "New", "123", "12a"] 0 (by decide)
    (by decide) (by decide)).trans (by decide)

theorem add_record_ok_shape (d : Directory) (inp : List String)
    (hok : (d.add_record inp).2 = .ok) :
    ∃ w m, (inp.any fun v => pyStrip v == "") = false ∧
      lookupStr ((nonIDColumns d.data).zip inp) workPhoneCol = some w ∧
      lookupStr ((nonIDColumns d.data).zip inp) mobilePhoneCol = some m ∧
      validate_phone w = true ∧ validate_phone m = true ∧
      (d.add_record inp).1.data.rows = d.data.rows ++
        [newRowFor d.data ((nonIDColumns d.data).zip inp) d.next_id] ∧
      (d.add_record inp).1.data.columns = d.data.columns := by
  by_cases h1 : (inp.any fun v => pyStrip v == "") = true
  · rw [show (d.add_record inp).2 = .emptyField by
      simp [Directory.add_record, h1]] at hok
    cases hok
  · simp only [Bool.not_eq_true] at h1
    cases hw : lookupStr ((nonIDColumns d.data).zip inp) workPhoneCol with
    | none =>
      rw [show (d.add_record inp).2 = .keyError by
        simp [Directory.add_record, h1, hw]] at hok
      cases hok
    | some w =>
      by_cases hvw : validate_phone w = true
      · cases hmo : lookupStr ((nonIDColumns d.data).zip inp)
            mobilePhoneCol with
        | none =>
          rw [show (d.add_record inp).2 = .keyError by
            simp [Directory.add_record, h1, hw, hvw, hmo]] at hok
          cases hok
        | some m =>
          by_cases hvm : validate_phone m = true
          · refine ⟨w, m, h1, rfl, rfl, hvw, hvm, ?_, ?_⟩ <;>
              simp [Directory.add_record, h1, hw, hmo, hvw, hvm,
                Directory.doSave]
          · rw [show (d.add_record inp).2 = .invalidPhone by
              simp [Directory.add_record, h1, hw, hvw, hmo, hvm]] at hok
            cases hok
      · rw [show (d.add_record inp).2 = .invalidPhone by
          simp [Directory.add_record, h1, hw, hvw]] at hok
        cases hok

/-- C1 (amended): both mutating operations preserve the weakened record
invariant — every non-ID field is a non-empty string and both phone
fields are digits-only — and a successful `add_record` additionally
commits a record whose non-ID fields are non-empty after stripping.
`edit_record`, however, applies any non-empty candidate to a non-phone
field without a whitespace check, so the spec's stronger
trimmed-non-emptiness invariant is not preserved (see the
counterexample). -/
theorem claim_C1 (d : Directory) (hinv : invW d = true) :
    (∀ inp, invW (d.add_record inp).1 = true) ∧
    (∀ id cand, invW (d.edit_record id cand).1 = true) ∧
    (∀ inp last, (d.add_record inp).2 = .ok →
      (d.add_record inp).1.data.rows.getLast? = some last →
      rowInvS d.data.columns last = true) := by
  refine ⟨?_, ?_, ?_⟩
  · intro inp
    rcases add_record_ok_or_fail d inp with ⟨hok, _⟩ | ⟨_, hfst⟩
    · obtain ⟨w, m, h1, hw, hmo, hvw, hvm, hrows, hcols⟩ :=
        add_record_ok_shape d inp hok
      have hnew := add_newRow_invS d.data inp d.next_id w m h1 hw hmo hvw hvm
      simp only [invW, hrows, hcols, List.all_append, Bool.and_eq_true,
        List.all_cons, List.all_nil, Bool.and_true]
      exact ⟨by simpa [invW] using hinv, rowInvW_of_rowInvS _ _ hnew⟩
    · rw [hfst]
      exact hinv
  · intro id cand
    by_cases hid : d.data.columns.contains "ID" = true
    · cases hf : findRowIdx d.data id with
      | none =>
        have hidm : "ID" ∈ d.data.columns := by simpa using hid
        have hno : d.edit_record id cand = (d, .notFound) := by
          simp [Directory.edit_record, hid, hidm, hf]
        rw [hno]
        exact hinv
      | some i =>
        have hlt : i < d.data.rows.length := findFirstIdx_lt _ _ _ hf
        have hrow : rowInvW d.data.columns (d.data.rows.getD i []) = true := by
          have hmem := list_getD_mem _ ([] : List Cell) i hlt
          exact List.all_eq_true.mp (by simpa [invW] using hinv) _ hmem
        have happ := rowInvW_applyEdits d.data.columns
          ((nonIDColumns d.data).zip cand) _ hrow
        have hall : (d.data.rows.set i
            (applyEdits d.data.columns (d.data.rows.getD i [])
              ((nonIDColumns d.data).zip cand)).1).all
            (rowInvW d.data.columns) = true :=
          list_all_set _ _ _ i (by simpa [invW] using hinv) happ
        rw [edit_record_found d id cand i hid hf]
        cases hres : (applyEdits d.data.columns (d.data.rows.getD i [])
            ((nonIDColumns d.data).zip cand)).2 with
        | some k =>
          simp only [hres]
          simpa [invW, Directory.withRows] using hall
        | none =>
          simp only [hres]
          simpa [invW, Directory.withRows, Directory.doSave] using hall
    · have hc : d.data.columns.contains "ID" = false := by simpa using hid
      have hnm : "ID" ∉ d.data.columns := by simpa using hc
      have hke : d.edit_record id cand = (d, .keyError) := by
        simp [Directory.edit_record, hc, hnm]
      rw [hke]
      exact hinv
  · intro inp last hok hlast
    obtain ⟨w, m, h1, hw, hmo, hvw, hvm, hrows, _⟩ :=
      add_record_ok_shape d inp hok
    rw [hrows, List.getLast?_concat] at hlast
    obtain rfl : newRowFor d.data ((nonIDColumns d.data).zip inp) d.next_id
        = last := by injection hlast
    exact add_newRow_invS d.data inp d.next_id w m h1 hw hmo hvw hvm

/-- C1 counterexample: the spec invariant (non-ID fields non-empty after
trimming) holds of the one-record store, an edit supplying the
all-whitespace surname candidate `" "` succeeds, and afterwards the
invariant is violated — `edit_record` commits an all-whitespace field
value. -/
theorem claim_C1_counterexample :
    invS exDir1 = true ∧
    (exDir1.edit_record 1 [" ", "", "", "", "", ""]).2 = .ok ∧
    invS (exDir1.edit_record 1 [" ", "", "", "", "", ""]).1 = false :=
  ⟨by decide, by decide, by decide⟩

/-- C1 witness: `claim_C1` applied to the concrete one-record store and
a successful add. -/
theorem claim_C1_witness :
    invW (exDir1.add_record exInput).1 = true :=
  (claim_C1 exDir1 (by decide)).1 exInput

/-- C4: a store constructed from loadable storage initializes `next_id`
to the loaded record count plus one; across any sequence of adds the
i-th (1-indexed) successful add is assigned ID `K + i` where `K` is the
loaded count — so from an empty store the i-th successful add receives
ID `i` — and the record a successful add appends really carries that ID
in its `ID` column. -/
theorem claim_C4 (st : Storage) (df : DF) (D : Directory)
    (hload : CSVDataStorage.load st = .ok df)
    (hnew : Directory.new st = .ok D) :
    D.next_id = (df.rows.length : Int) + 1 ∧
    (∀ inps n, n < (assignedIds D inps).length →
      (assignedIds D inps).getD n 0 = (df.rows.length : Int) + 1 + n) ∧
    (∀ (d : Directory) inp, (d.add_record inp).2 = .ok →
      "ID" ∈ d.data.columns →
      ((d.add_record inp).1.data.rows.getLast?.getD []).getD
        (idxOfCol d.data.columns "ID") Cell.nan = Cell.int d.next_id) := by
  have hD : D.next_id = (df.rows.length : Int) + 1 := by
    unfold Directory.new at hnew
    rw [hload] at hnew
    simp only [Except.map] at hnew
    obtain rfl : _ = D := by injection hnew
    rfl
  refine ⟨hD, ?_, ?_⟩
  · intro inps n h
    rw [assignedIds_getD inps D n h, hD]
  · intro d inp hok hid
    exact add_record_ok_last d inp hok hid

/-- C4 witness: `claim_C4` on a store built from absent storage — the
second successful add is assigned ID 2, and the appended record carries
ID 1 after the first add on the empty store. -/
theorem claim_C4_witness :
    (assignedIds exDirEmpty [exInput, exInput]).getD 1 0 = 2 ∧
    ((exDirEmpty.add_record exInput).1.data.rows.getLast?.getD []).getD
      (idxOfCol exDirEmpty.data.columns "ID") Cell.nan = Cell.int 1 := by
  have h := claim_C4 .absent { columns := schemaColumns, rows := [] }
    exDirEmpty rfl (by decide)
  refine ⟨?_, ?_⟩
  · have h2 := h.2.1 [exInput, exInput] 1 (by decide)
    simpa using h2
  · have h3 := h.2.2 exDirEmpty exInput (by decide) (by decide)
    simpa using h3

theorem stableText_parts {s : String} (h : stableText s = true) :
    s ≠ "" ∧ isNaText s = false ∧
      ∀ n, pyIntParse s = some n → toString n = s := by
  simp only [stableText, Bool.and_eq_true, bne_iff_ne, ne_eq,
    Bool.not_eq_true'] at h
  refine ⟨h.1.1, h.1.2, ?_⟩
  intro n hn
  have h2 := h.2
  rw [hn] at h2
  simpa using h2

theorem stableText_cellText {cell : Cell}
    (h : stableText (cellOutText cell) = true) :
    cellText cell = cellOutText cell := by
  cases cell with
  | int n => rfl
  | float n => rfl
  | str s => rfl
  | nan => exact absurd rfl (stableText_parts h).1

theorem convCell_str {s : String} (h : isNaText s = false) :
    convCell false false s = Cell.str s := by
  simp [convCell, h]

theorem convCell_int {s : String} {n : Int} (h : isNaText s = false)
    (hp : pyIntParse s = some n) : convCell true false s = Cell.int n := by
  simp [convCell, h, hp]

theorem convert_row_text (cols : List String) (rows : List (List Cell))
    (hrect : ∀ r ∈ rows, r.length = cols.length)
    (hstab : ∀ r ∈ rows, ∀ cell ∈ r, stableText (cellOutText cell) = true)
    (r : List Cell) (hr : r ∈ rows) :
    (List.range cols.length).map (fun j =>
        cellText (convCell (colAllInt (rows.map fun r0 => r0.map cellOutText) j)
          (colHasNa (rows.map fun r0 => r0.map cellOutText) j)
          ((r.map cellOutText).getD j ""))) = r.map cellText := by
  have hlen : r.length = cols.length := hrect r hr
  apply List.ext_getElem
  · simp [hlen]
  · intro j h1 h2
    simp only [List.getElem_map, List.getElem_range]
    have hj : j < cols.length := by simpa using h1
    have hjr : j < r.length := by omega
    have hgetD : (r.map cellOutText).getD j "" =
        cellOutText (r.getD j Cell.nan) :=
      list_getD_map _ _ _ _ j hjr
    have hcellmem : r.getD j Cell.nan ∈ r := list_getD_mem _ _ j hjr
    have hstabj : stableText (cellOutText (r.getD j Cell.nan)) = true :=
      hstab r hr _ hcellmem
    obtain ⟨hne, hna, hcanon⟩ := stableText_parts hstabj
    have hhasna : colHasNa (rows.map fun r0 => r0.map cellOutText) j = false := by
      cases hcase : colHasNa (rows.map fun r0 => r0.map cellOutText) j with
      | false => rfl
      | true =>
        exfalso
        simp only [colHasNa, List.any_eq_true] at hcase
        obtain ⟨rt, hrt, hna2⟩ := hcase
        obtain ⟨r0, hr0, rfl⟩ := List.mem_map.mp hrt
        have hjr0 : j < r0.length := by rw [hrect r0 hr0]; exact hj
        rw [list_getD_map _ _ _ Cell.nan j hjr0] at hna2
        rw [(stableText_parts (hstab r0 hr0 _
          (list_getD_mem _ _ j hjr0))).2.1] at hna2
        cases hna2
    have hrj : r[j] = r.getD j Cell.nan := (List.getD_eq_getElem r Cell.nan hjr).symm
    rw [hgetD, hhasna, hrj]
    cases hA : colAllInt (rows.map fun r0 => r0.map cellOutText) j with
    | false =>
      rw [convCell_str hna]
      exact (stableText_cellText hstabj).symm
    | true =>
      have hsome : (pyIntParse (cellOutText (r.getD j Cell.nan))).isSome = true := by
        have hmem : (r.map cellOutText) ∈
            (rows.map fun r0 => r0.map cellOutText) :=
          List.mem_map_of_mem _ hr
        have hx := List.all_eq_true.mp hA _ hmem
        rw [hgetD, hna] at hx
        simpa using hx
      obtain ⟨n, hn⟩ := Option.isSome_iff_exists.mp hsome
      rw [convCell_int hna hn]
      show toString n = cellText (r.getD j Cell.nan)
      rw [stableText_cellText hstabj]
      exact hcanon n hn

/-- C9 (amended): a `save` followed by a fresh `load` over the same
backing storage reproduces the schema header, the record order and
count, and — provided every written field is round-trip stable
(non-empty, not an NA sentinel, and either the canonical text of an
integer or a string outside the reach of numeric inference) — every
field value byte-for-byte as text.  Without that proviso `read_csv`'s
type inference can rewrite values: `"007"` reloads as `7` (see the
counterexample). -/
theorem claim_C9 (df : DF)
    (hrect : (df.rows.all fun r => r.length == df.columns.length) = true)
    (hstab : (df.rows.all fun r =>
      r.all fun cell => stableText (cellOutText cell)) = true) :
    ∃ df', CSVDataStorage.load (CSVDataStorage.save df) = .ok df' ∧
      df'.columns = df.columns ∧ textMatrix df' = textMatrix df := by
  have hrect' : ∀ r ∈ df.rows, r.length = df.columns.length := by
    intro r hr
    simpa using List.all_eq_true.mp hrect r hr
  have hstab' : ∀ r ∈ df.rows, ∀ cell ∈ r,
      stableText (cellOutText cell) = true := by
    intro r hr cell hc
    exact List.all_eq_true.mp (List.all_eq_true.mp hstab r hr) cell hc
  have hnolong : ((df.rows.map fun r => r.map cellOutText).any
      fun rt => df.columns.length < rt.length) = false := by
    cases hcase : ((df.rows.map fun r => r.map cellOutText).any
        fun rt => df.columns.length < rt.length) with
    | false => rfl
    | true =>
      exfalso
      simp only [List.any_eq_true] at hcase
      obtain ⟨rt, hrt, hlong⟩ := hcase
      obtain ⟨r0, hr0, rfl⟩ := List.mem_map.mp hrt
      have hlt : df.columns.length < r0.length := by simpa using hlong
      rw [hrect' r0 hr0] at hlt
      omega
  refine ⟨{ columns := df.columns,
            rows := convertRows df.columns
              (df.rows.map fun r => r.map cellOutText) }, ?_, rfl, ?_⟩
  · simp [CSVDataStorage.save, CSVDataStorage.load, hnolong]
  · simp only [textMatrix, convertRows, List.map_map]
    apply List.map_congr_left
    intro r hr
    simpa using convert_row_text df.columns df.rows hrect' hstab' r hr

/-- C9 witness: `claim_C9` on the concrete one-record frame (canonical
digit phones, letter-bearing names), whose round trip is text-exact. -/
theorem claim_C9_witness :
    ∃ df', CSVDataStorage.load (CSVDataStorage.save exDF1) = .ok df' ∧
      df'.columns = exDF1.columns ∧ textMatrix df' = textMatrix exDF1 :=
  claim_C9 exDF1 (by decide) (by decide)

/-- C9 counterexample: the work phone `"007"` is saved as text but
reloaded through integer inference as `7`, so the round-tripped
collection is not byte-for-byte identical as text. -/
theorem claim_C9_counterexample :
    CSVDataStorage.load (CSVDataStorage.save exDF007) = .ok exDF007loaded ∧
    textMatrix exDF007loaded ≠ textMatrix exDF007 :=
  ⟨by decide, by decide⟩

end Phonebook
